import Mathlib

/-!
Verification of the SeedParser task-orchestration core.

This file gives a shallow embedding of the Go backend (app.go): the two
persisted task stores (download tasks, stored as a JSON list of loosely
typed maps in download_progress.json, and transcode tasks, stored as a
JSON list of TranscodeTask records in transcode_progress.json), the
store mutations performed by enqueue, promote-next, startup recovery,
cancel, the monitoring loops' exit transitions, the ffmpeg progress
computation, and the size-string parser.  Time stamps are modelled as
naturals, the persisted JSON file as the list of records it holds, and
each Go function's sequence of file writes as the list of store
snapshots it writes.

float64 values are modelled exactly, as fractions.  To keep every
definition kernel-computable the fractions are kept unnormalized
(numerator and positive denominator, type Frac below); Frac.toRat maps
them to ℚ for the statements of order-theoretic properties.  The
rounding error of float64 is not modelled; none of the claims below
depends on it.
-/

namespace SeedParser

/-- Exact, unnormalized fraction: the model of a Go float64 value.
All constructions keep the denominator positive. -/
structure Frac where
  num : Int
  den : Nat
  deriving Repr, DecidableEq

/-- The fraction n / 1. -/
def Frac.ofInt (n : Int) : Frac := ⟨n, 1⟩

/-- Addition of fractions (no normalization). -/
def Frac.add (a b : Frac) : Frac := ⟨a.num * b.den + b.num * a.den, a.den * b.den⟩

/-- Multiplication of fractions (no normalization). -/
def Frac.mul (a b : Frac) : Frac := ⟨a.num * b.num, a.den * b.den⟩

/-- Division of fractions, keeping the denominator positive.  Division
by zero yields 0 (Go float64 division by zero yields an infinity; the
orchestrator never divides by zero on the paths studied here, which
guard the divisor to be positive first). -/
def Frac.div (a b : Frac) : Frac :=
  if b.num = 0 then ⟨0, 1⟩
  else if b.num < 0 then ⟨-(a.num * (b.den : Int)), a.den * b.num.natAbs⟩
  else ⟨a.num * (b.den : Int), a.den * b.num.natAbs⟩

/-- Strict order on fractions by cross multiplication (the model of the
float64 comparison; correct whenever denominators are positive). -/
def Frac.blt (a b : Frac) : Bool := decide (a.num * (b.den : Int) < b.num * (a.den : Int))

/-- Value equality of fractions by cross multiplication (the model of
the float64 equality test). -/
def Frac.beq (a b : Frac) : Bool := decide (a.num * (b.den : Int) = b.num * (a.den : Int))

/-- The rational value of a fraction. -/
def Frac.toRat (a : Frac) : ℚ := (a.num : ℚ) / (a.den : ℚ)

/-- Go int64(float64) conversion: truncation toward zero. -/
def Frac.toInt64 (a : Frac) : Int :=
  if a.num < 0 then -((a.num.natAbs / a.den : Nat) : Int)
  else ((a.num.natAbs / a.den : Nat) : Int)

/-- Embedding of the Go struct TranscodeTask (app.go): one transcode
task record as persisted in transcode_progress.json.  time.Time fields
are naturals (the Go zero time is 0); Progress is a fraction. -/
structure TranscodeTask where
  taskID : String
  inputFile : String
  outputFile : String
  status : String
  startTime : Nat
  endTime : Nat
  progress : Frac
  speed : String
  timeRemaining : String
  ffmpegCommand : String
  pid : Int
  error : String
  videoCodec : String
  audioCodec : String
  resolution : String
  bitrate : String
  deriving Repr, DecidableEq

/-- Embedding of one download task record.  In the source these are
handled as map[string]interface{} read from download_progress.json; the
fields below are exactly the keys the code reads or writes.  Keys that
can be absent (pid is deleted on demotion, endTime and lastUpdate are
only set later, startTime can be missing or unparsable) are Options. -/
structure DownloadTask where
  taskId : String
  magnetLink : String
  status : String
  totalSize : Int
  downloaded : Int
  selectedFiles : List String
  fileName : String
  startTime : Option Nat
  outputDir : String
  speed : Int
  percentage : Frac
  pid : Option Int
  endTime : Option Nat
  lastUpdate : Option Nat
  deriving Repr, DecidableEq

/-! ## parseFileSize (app.go lines 2290-2337)

The Go function removes spaces, matches the anchored regular expression
(digits, optional fraction)(optional unit letter KkMmGgTtPp, optional
B or b), normalizes the unit to upper case with a B suffix, multiplies
by the 1024-based multiplier and truncates the float64 result to int64.
-/

/-- Longest digit sequence at the head of the character list, with the
remainder: models the greedy match of a digit-class plus in the size
regular expression. -/
def takeDigits : List Char → List Char × List Char
  | [] => ([], [])
  | c :: cs =>
    if c.isDigit then
      let p := takeDigits cs
      (c :: p.1, p.2)
    else ([], c :: cs)

/-- Match of the number group: one or more digits, optionally a dot
followed by one or more digits.  Returns the integer digits, the
optional fraction digits and the unconsumed remainder. -/
def matchSizeNumber (l : List Char) : Option (List Char × Option (List Char) × List Char) :=
  let p := takeDigits l
  if p.1 = [] then none
  else
    match p.2 with
    | '.' :: rest =>
      let q := takeDigits rest
      if q.1 = [] then none else some (p.1, some q.1, q.2)
    | rest => some (p.1, none, rest)

/-- The size-unit character class of the size regular expression. -/
def isSizeUnitChar (c : Char) : Bool :=
  decide (c ∈ ['K', 'k', 'M', 'm', 'G', 'g', 'T', 't', 'P', 'p'])

/-- Match of the unit group against the whole remainder (the regular
expression is anchored at the end): an optional unit letter followed by
an optional B or b. -/
def matchSizeUnit : List Char → Option (List Char)
  | [] => some []
  | [c] =>
    if isSizeUnitChar c = true ∨ c = 'B' ∨ c = 'b' then some [c] else none
  | [c1, c2] =>
    if isSizeUnitChar c1 = true ∧ (c2 = 'B' ∨ c2 = 'b') then some [c1, c2] else none
  | _ => none

/-- Digit characters to a natural, most significant first. -/
def digitsToNat (l : List Char) : Nat :=
  l.foldl (fun a c => a * 10 + (c.toNat - 48)) 0

/-- Value of a decimal literal: integer digits plus optional fraction
digits.  Models strconv.ParseFloat on the matched number group. -/
def decimalToFrac (ip : List Char) (fp : Option (List Char)) : Frac :=
  match fp with
  | none => Frac.ofInt (digitsToNat ip)
  | some f => ⟨(digitsToNat ip : Int) * (10 ^ f.length : Nat) + (digitsToNat f : Int), 10 ^ f.length⟩

/-- Unit normalization of parseFileSize: empty means bytes, a single
letter gets a B appended, and everything is upper-cased. -/
def normalizeUnit (u : List Char) : String :=
  match u.map Char.toUpper with
  | [] => "B"
  | [c] => String.mk [c, 'B']
  | cs => String.mk cs

/-- The 1024-based byte multiplier of parseFileSize; the Go switch has
no default case, so an unknown unit keeps multiplier 1. -/
def sizeMultiplier (unit : String) : Frac :=
  if unit = "B" then Frac.ofInt 1
  else if unit = "KB" then Frac.ofInt 1024
  else if unit = "MB" then Frac.ofInt (1024 * 1024)
  else if unit = "GB" then Frac.ofInt (1024 * 1024 * 1024)
  else if unit = "TB" then Frac.ofInt (1024 * 1024 * 1024 * 1024)
  else if unit = "PB" then Frac.ofInt (1024 * 1024 * 1024 * 1024 * 1024)
  else Frac.ofInt 1

/-- Embedding of parseFileSize (app.go lines 2290-2337). -/
def parseFileSize (sizeStr : String) : Except String Int :=
  let cs := sizeStr.toList.filter (fun c => decide (c ≠ ' '))
  match matchSizeNumber cs with
  | none => Except.error ("invalid size format: " ++ sizeStr)
  | some (ip, fp, rest) =>
    match matchSizeUnit rest with
    | none => Except.error ("invalid size format: " ++ sizeStr)
    | some u =>
      Except.ok (((decimalToFrac ip fp).mul (sizeMultiplier (normalizeUnit u))).toInt64)

/-! ## The ffmpeg progress monitor (monitorTranscodeProgress, lines 1405-1621)

The stdout reader parses the key=value lines of ffmpeg's -progress
output and recomputes a progress fraction after every line, with a
three-tier fallback; the stderr reader extracts the one-time total
duration and error lines.  The loop state is the set of closure
variables of the Go function; each step returns the new state and the
list of store updates the step commits (updateTranscodeSpeed and
updateTranscodeProgress calls, in order).
-/

/-- The closure variables of monitorTranscodeProgress (lines
1410-1418). -/
structure MonState where
  currentProgress : Frac
  totalDuration : Frac
  hasTotalDuration : Bool
  currentTime : Frac
  currentFrame : Int
  currentSpeed : String
  deriving Repr, DecidableEq

/-- The initial monitor state: all numeric closure variables are zero
values. -/
def MonState.init : MonState :=
  { currentProgress := Frac.ofInt 0, totalDuration := Frac.ofInt 0,
    hasTotalDuration := false, currentTime := Frac.ofInt 0, currentFrame := 0,
    currentSpeed := "" }

/-- One committed store update of the monitor: an updateTranscodeSpeed
call or an updateTranscodeProgress call with its progress value and
error message. -/
inductive TUpdate where
  | speed (value : String)
  | prog (progress : Frac) (errMsg : String)
  deriving Repr, DecidableEq

/-- strings.SplitN(line, "=", 2) restricted to the case the loop keeps:
the text before the first '=' and everything after it; none when the
line has no '='. -/
def splitFirstEq : List Char → Option (List Char × List Char)
  | [] => none
  | c :: cs =>
    if c = '=' then some ([], cs)
    else
      match splitFirstEq cs with
      | none => none
      | some (k, v) => some (c :: k, v)

/-- strconv.ParseFloat on the plain decimal forms the monitored tools
emit (optional minus sign, digits, optional fraction); none models a
parse error, in which case the Go callers use the zero value. -/
def parseGoFloatCore (l : List Char) : Option Frac :=
  match matchSizeNumber l with
  | some (ip, fp, []) => some (decimalToFrac ip fp)
  | _ => none

/-- strconv.ParseFloat, with an optional leading minus sign. -/
def parseGoFloat (v : String) : Option Frac :=
  match v.toList with
  | '-' :: rest => (parseGoFloatCore rest).map (fun f => ⟨-f.num, f.den⟩)
  | l => parseGoFloatCore l

/-- strconv.ParseInt on the decimal integer forms the monitored tools
emit. -/
def parseGoInt (v : String) : Option Int :=
  match v.toList with
  | '-' :: rest =>
    if rest ≠ [] ∧ rest.all Char.isDigit then some (-(digitsToNat rest : Int)) else none
  | l => if l ≠ [] ∧ l.all Char.isDigit then some ((digitsToNat l : Int)) else none

/-- strings.Split on a one-character separator, on character lists. -/
def splitOnChar (sep : Char) : List Char → List (List Char)
  | [] => [[]]
  | c :: cs =>
    let r := splitOnChar sep cs
    if c = sep then [] :: r
    else
      match r with
      | [] => [[c]]
      | h :: t => (c :: h) :: t

/-- The out_time branch of the stdout reader (lines 1436-1444): the
value is split on ':' and, when it has exactly three parts, converted
to seconds with parse errors read as zero. -/
def updateOutTime (value : String) (s : MonState) : MonState :=
  match splitOnChar ':' value.toList with
  | [h, m, sec] =>
    let hours := (parseGoFloat (String.mk h)).getD (Frac.ofInt 0)
    let minutes := (parseGoFloat (String.mk m)).getD (Frac.ofInt 0)
    let seconds := (parseGoFloat (String.mk sec)).getD (Frac.ofInt 0)
    { s with currentTime :=
        ((hours.mul (Frac.ofInt 3600)).add (minutes.mul (Frac.ofInt 60))).add seconds }
  | _ => s

/-- The final [0,1] clamp of the computed progress (lines 1499-1504). -/
def clamp01 (p : Frac) : Frac :=
  if p.blt (Frac.ofInt 0) then Frac.ofInt 0
  else if (Frac.ofInt 1).blt p then Frac.ofInt 1
  else p

/-- The three-tier progress computation of the stdout reader (lines
1469-1504): elapsed over total when the total duration is known and
both are positive (with the elapsed time capped at the total, and the
cap written back to the loop variable), else the frame-count heuristic
capped at 0.99, else the fixed 0.001 increment capped at 0.99; every
tier ends in the [0,1] clamp.  Returns the computed fraction and the
new value of the currentTime variable. -/
def calcProgress (s : MonState) : Frac × Frac :=
  if s.hasTotalDuration && (Frac.ofInt 0).blt s.totalDuration
      && (Frac.ofInt 0).blt s.currentTime then
    let ct := if s.totalDuration.blt s.currentTime then s.totalDuration else s.currentTime
    (clamp01 (ct.div s.totalDuration), ct)
  else if 0 < s.currentFrame then
    let p := (Frac.ofInt s.currentFrame).div (Frac.ofInt 100000)
    (clamp01 (if Frac.blt ⟨99, 100⟩ p then ⟨99, 100⟩ else p), s.currentTime)
  else
    let p := s.currentProgress.add ⟨1, 1000⟩
    (clamp01 (if Frac.blt ⟨99, 100⟩ p then ⟨99, 100⟩ else p), s.currentTime)

/-- One iteration of the stdout reader of monitorTranscodeProgress on
one line (lines 1423-1511): the key=value switch (out_time, frame,
speed with an immediate speed commit, progress with the end marker
setting the fraction to exactly 1 and committing it), then the
three-tier recomputation, committed only when it exceeds the last
committed fraction by more than 0.005 or equals 1 exactly. -/
def stdoutStep (line : String) (s : MonState) : MonState × List TUpdate :=
  match splitFirstEq line.toList with
  | none => (s, [])
  | some (k, v) =>
    let key := String.mk k
    let value := String.mk v
    let sw :=
      if key = "out_time" then (updateOutTime value s, ([] : List TUpdate))
      else if key = "frame" then
        (match parseGoInt value with
         | some f => { s with currentFrame := f }
         | none => s, [])
      else if key = "speed" then
        ({ s with currentSpeed := value }, [TUpdate.speed value])
      else if key = "progress" then
        (if value = "end" then
           ({ s with currentProgress := Frac.ofInt 1 }, [TUpdate.prog (Frac.ofInt 1) ""])
         else (s, []))
      else (s, [])
    let cp := (calcProgress sw.1).1
    let s2 := { sw.1 with currentTime := (calcProgress sw.1).2 }
    if (s2.currentProgress.add ⟨5, 1000⟩).blt cp || cp.beq (Frac.ofInt 1) then
      ({ s2 with currentProgress := cp }, sw.2 ++ [TUpdate.prog cp ""])
    else (s2, sw.2)

/-- strings.Contains on character lists. -/
def containsSub (sub : List Char) : List Char → Bool
  | [] => sub.isEmpty
  | c :: cs => sub.isPrefixOf (c :: cs) || containsSub sub cs

/-- Match of the duration regular expression Duration:
(\d+):(\d+):(\d+\.\d+) at the head of the list: the literal text, then
three digit groups, the last with a mandatory decimal fraction. -/
def matchDurationAt (l : List Char) : Option (Frac × Frac × Frac) :=
  if ("Duration: ".toList).isPrefixOf l then
    let p1 := takeDigits (l.drop 10)
    if p1.1 = [] then none
    else
      match p1.2 with
      | ':' :: r2 =>
        let p2 := takeDigits r2
        if p2.1 = [] then none
        else
          match p2.2 with
          | ':' :: r3 =>
            let p3 := takeDigits r3
            if p3.1 = [] then none
            else
              match p3.2 with
              | '.' :: r4 =>
                let p4 := takeDigits r4
                if p4.1 = [] then none
                else some (Frac.ofInt (digitsToNat p1.1), Frac.ofInt (digitsToNat p2.1),
                  decimalToFrac p3.1 (some p4.1))
              | _ => none
          | _ => none
      | _ => none
  else none

/-- First match of the duration regular expression anywhere in the
line. -/
def matchDuration : List Char → Option (Frac × Frac × Frac)
  | [] => none
  | c :: cs =>
    match matchDurationAt (c :: cs) with
    | some r => some r
    | none => matchDuration cs

/-- One iteration of the stderr reader of monitorTranscodeProgress on
one line (lines 1524-1558): a line containing an error keyword is
recorded into the task's error field with the progress left at its
current value; otherwise, while the total duration is unknown, the
duration announcement is matched, cached, and — when some elapsed time
was already seen — the progress is recomputed as elapsed over total,
clamped to at most 1. -/
def stderrStep (line : String) (s : MonState) : MonState × List TUpdate :=
  if containsSub "Error".toList line.toList || containsSub "error".toList line.toList then
    (s, [TUpdate.prog s.currentProgress line])
  else if s.hasTotalDuration = false then
    match matchDuration line.toList with
    | some (h, m, sec) =>
      let total := ((h.mul (Frac.ofInt 3600)).add (m.mul (Frac.ofInt 60))).add sec
      let s1 := { s with totalDuration := total, hasTotalDuration := true }
      if (Frac.ofInt 0).blt s1.currentTime then
        let p := s1.currentTime.div total
        let p2 := if (Frac.ofInt 1).blt p then Frac.ofInt 1 else p
        ({ s1 with currentProgress := p2 }, [TUpdate.prog p2 ""])
      else (s1, [])
    | none => (s, [])
  else (s, [])

/-! ## Store scans and mutations

The download store is download_progress.json, the transcode store is
transcode_progress.json.  Every operation follows the load-all,
mutate-in-memory, save-all discipline; here each operation is a pure
function from the loaded store to the store it saves, and operations
that perform several saves are modelled as the list of snapshots they
write, in order.
-/

/-- Scan of the download store for a task in the active status
(DownloadTorrentFiles lines 791-798, startNextWaitingTask lines
2041-2047). -/
def hasDownloadingTask (l : List DownloadTask) : Bool :=
  l.any (fun t => decide (t.status = "downloading"))

/-- Scan of the transcode store for a task in the active status
(AddTranscodeTaskWithParams lines 944-951, startNextTranscodeTask lines
1715-1722). -/
def hasTranscodingTask (l : List TranscodeTask) : Bool :=
  l.any (fun t => decide (t.status = "transcoding"))

/-- The initial download record built by DownloadTorrentFiles (lines
762-775): status waiting, zero counters, no pid, no end time. -/
def initialProgress (taskId magnetLink : String) (selectedFiles : List String)
    (fileName : String) (now : Nat) (outputDir : String) : DownloadTask :=
  { taskId := taskId, magnetLink := magnetLink, status := "waiting", totalSize := 0,
    downloaded := 0, selectedFiles := selectedFiles, fileName := fileName,
    startTime := some now, outputDir := outputDir, speed := 0,
    percentage := Frac.ofInt 0, pid := none, endTime := none, lastUpdate := none }

/-- The initial transcode record built by AddTranscodeTaskWithParams
(lines 914-926): status waiting, progress 0, pid 0, no error. -/
def newTranscodeTask (taskID inputFile outputFile videoCodec audioCodec resolution
    bitrate ffmpegCommand : String) (now : Nat) : TranscodeTask :=
  { taskID := taskID, inputFile := inputFile, outputFile := outputFile,
    status := "waiting", startTime := now, endTime := 0, progress := Frac.ofInt 0,
    speed := "", timeRemaining := "", ffmpegCommand := ffmpegCommand, pid := 0,
    error := "", videoCodec := videoCodec, audioCodec := audioCodec,
    resolution := resolution, bitrate := bitrate }

/-- The store write performed by startDownload after launching the
child process (lines 1805-1822): the first record with the given taskId
gets status downloading and the new pid. -/
def markDownloading (taskId : String) (pid : Int) : List DownloadTask → List DownloadTask
  | [] => []
  | t :: ts =>
    if t.taskId = taskId then { t with status := "downloading", pid := some pid } :: ts
    else t :: markDownloading taskId pid ts

/-- The store write performed by startTranscode after launching ffmpeg
(lines 1383-1397): the first record with the given taskID gets status
transcoding, the new pid and a fresh start time. -/
def markTranscoding (taskID : String) (pid : Int) (now : Nat) :
    List TranscodeTask → List TranscodeTask
  | [] => []
  | t :: ts =>
    if t.taskID = taskID then
      { t with status := "transcoding", pid := pid, startTime := now } :: ts
    else t :: markTranscoding taskID pid now ts

/-- First waiting download task in stable list order (startNextWaitingTask
lines 2049-2056). -/
def firstWaitingDownload (l : List DownloadTask) : Option DownloadTask :=
  l.find? (fun t => decide (t.status = "waiting"))

/-- First waiting transcode task in stable list order
(startNextTranscodeTask lines 1730-1737). -/
def firstWaitingTranscode (l : List TranscodeTask) : Option TranscodeTask :=
  l.find? (fun t => decide (t.status = "waiting"))

/-- The store snapshots written by startNextWaitingTask (lines
2026-2070): nothing if a task is already downloading or no task waits,
otherwise the single write of startDownload on the first waiting task.
pid is the process id the launch produced. -/
def startNextWaitingTaskWrites (pid : Int) (l : List DownloadTask) :
    List (List DownloadTask) :=
  if hasDownloadingTask l then []
  else
    match firstWaitingDownload l with
    | none => []
    | some t => [markDownloading t.taskId pid l]

/-- The store snapshots written by startNextTranscodeTask (lines
1701-1751): nothing if a task is already transcoding or no task waits,
otherwise the single write of startTranscode on the first waiting
task. -/
def startNextTranscodeTaskWrites (pid : Int) (now : Nat) (l : List TranscodeTask) :
    List (List TranscodeTask) :=
  if hasTranscodingTask l then []
  else
    match firstWaitingTranscode l with
    | none => []
    | some t => [markTranscoding t.taskID pid now l]

/-- The store snapshots written by the enqueue operation
DownloadTorrentFiles (lines 757-823): the new waiting record is
appended and written; if the scan of the pre-existing list found no
downloading task, startDownload then writes the same list with the new
task marked downloading. -/
def downloadTorrentFilesWrites (taskId magnetLink : String) (selectedFiles : List String)
    (fileName : String) (now : Nat) (outputDir : String) (pid : Int)
    (l : List DownloadTask) : List (List DownloadTask) :=
  let l1 := l ++ [initialProgress taskId magnetLink selectedFiles fileName now outputDir]
  if hasDownloadingTask l then [l1] else [l1, markDownloading taskId pid l1]

/-- The store snapshots written by the enqueue operation
AddTranscodeTaskWithParams (lines 928-990): the new waiting record is
appended and written; if the scan of the pre-existing list found no
transcoding task, startNextTranscodeTask runs on the written list. -/
def addTranscodeTaskWrites (taskID inputFile outputFile videoCodec audioCodec resolution
    bitrate ffmpegCommand : String) (now now2 : Nat) (pid : Int)
    (l : List TranscodeTask) : List (List TranscodeTask) :=
  let l1 := l ++ [newTranscodeTask taskID inputFile outputFile videoCodec audioCodec
    resolution bitrate ffmpegCommand now]
  if hasTranscodingTask l then [l1] else l1 :: startNextTranscodeTaskWrites pid now2 l1

/-- Number of tasks of the download store in the given status. -/
def countStatusD : List DownloadTask → String → Nat
  | [], _ => 0
  | t :: ts, s => (if t.status = s then 1 else 0) + countStatusD ts s

/-- Number of tasks of the transcode store in the given status. -/
def countStatusT : List TranscodeTask → String → Nat
  | [], _ => 0
  | t :: ts, s => (if t.status = s then 1 else 0) + countStatusT ts s

/-! ## Startup recovery (startup, app.go lines 149-318) -/

/-- Demotion of one download record by the startup scan (lines
180-191): a task found downloading is set back to waiting, its end time
is stamped and its pid key deleted; all other tasks are untouched. -/
def demoteDownloadTask (now : Nat) (t : DownloadTask) : DownloadTask :=
  if t.status = "downloading" then
    { t with status := "waiting", endTime := some now, pid := none }
  else t

/-- The download store contents after the startup demotion pass (lines
180-205); when no task was downloading the file is not rewritten, and
the contents are unchanged either way in that case. -/
def recoverDownloads (now : Nat) (l : List DownloadTask) : List DownloadTask :=
  l.map (demoteDownloadTask now)

/-- Demotion of one transcode record by the startup scan (lines
269-280): a task found transcoding is set back to waiting, its end time
is stamped and its PID zeroed. -/
def demoteTranscodeTask (now : Nat) (t : TranscodeTask) : TranscodeTask :=
  if t.status = "transcoding" then
    { t with status := "waiting", endTime := now, pid := 0 }
  else t

/-- The transcode store contents after the startup demotion pass (lines
269-294). -/
def recoverTranscodes (now : Nat) (l : List TranscodeTask) : List TranscodeTask :=
  l.map (demoteTranscodeTask now)

/-- The startup scan for the earliest waiting download task (lines
207-228): waiting tasks with a missing or unparsable startTime are
skipped, and a later task replaces the candidate only when its start
time is strictly earlier.  The accumulator carries the candidate and
its parsed start time, exactly like the Go loop. -/
def startupScanDownload : List DownloadTask → Option (DownloadTask × Nat) →
    Option (DownloadTask × Nat)
  | [], best => best
  | t :: ts, best =>
    if t.status = "waiting" then
      match t.startTime with
      | none => startupScanDownload ts best
      | some st =>
        match best with
        | none => startupScanDownload ts (some (t, st))
        | some (b, bt) =>
          if st < bt then startupScanDownload ts (some (t, st))
          else startupScanDownload ts (some (b, bt))
    else startupScanDownload ts best

/-- The earliest waiting download task selected at startup (lines
207-241). -/
def startupEarliestDownload (l : List DownloadTask) : Option DownloadTask :=
  (startupScanDownload l none).map (fun p => p.1)

/-- The startup scan for the earliest waiting transcode task (lines
296-306): a later task replaces the candidate only when its StartTime
is strictly before the candidate's. -/
def startupScanTranscode : List TranscodeTask → Option TranscodeTask → Option TranscodeTask
  | [], best => best
  | t :: ts, best =>
    if t.status = "waiting" then
      match best with
      | none => startupScanTranscode ts (some t)
      | some b =>
        if t.startTime < b.startTime then startupScanTranscode ts (some t)
        else startupScanTranscode ts (some b)
    else startupScanTranscode ts best

/-- The earliest waiting transcode task selected at startup (lines
296-317). -/
def startupEarliestTranscode (l : List TranscodeTask) : Option TranscodeTask :=
  startupScanTranscode l none

/-! ## Monitoring-loop exit transitions -/

/-- The final status write of monitorTranscodeProgress after cmd.Wait
returns (lines 1584-1615), applied to the first record whose TaskID
matches: a wait error makes the task failed, keeping an already
recorded error text when there is one, otherwise storing the wait
error; a clean exit makes it completed with progress forced to 1.
The record's current status is not consulted. -/
def transcodeExitApply (now : Nat) (cmdErr : Option String) (t : TranscodeTask) :
    TranscodeTask :=
  match cmdErr with
  | some e =>
    { t with status := "failed", error := if t.error = "" then e else t.error, endTime := now }
  | none => { t with status := "completed", progress := Frac.ofInt 1, endTime := now }

/-- The transcode store contents written by monitorTranscodeProgress
after cmd.Wait returns (lines 1584-1615). -/
def monitorTranscodeExit (taskID : String) (now : Nat) (cmdErr : Option String) :
    List TranscodeTask → List TranscodeTask
  | [] => []
  | t :: ts =>
    if t.taskID = taskID then transcodeExitApply now cmdErr t :: ts
    else t :: monitorTranscodeExit taskID now cmdErr ts

/-- The download store contents after the monitoring goroutine of
startDownload observes a wait error (lines 1923-1972): when the record
is already cancelled or paused the function returns without writing
(the store is unchanged); otherwise the task is set back to waiting
with its end time stamped and its pid key deleted. -/
def downloadWaitErrUpdate (taskId : String) (now : Nat) :
    List DownloadTask → List DownloadTask
  | [] => []
  | t :: ts =>
    if t.taskId = taskId then
      (if t.status = "cancelled" ∨ t.status = "paused" then t :: ts
       else { t with status := "waiting", endTime := some now, pid := none } :: ts)
    else t :: downloadWaitErrUpdate taskId now ts

/-- The download store contents after the monitoring goroutine of
startDownload observes a clean exit (lines 1974-2016): when the record
is already cancelled or paused the function returns without writing;
otherwise the task is set completed with its end time stamped (the pid
key and the percentage are left as they are). -/
def downloadWaitOkUpdate (taskId : String) (now : Nat) :
    List DownloadTask → List DownloadTask
  | [] => []
  | t :: ts =>
    if t.taskId = taskId then
      (if t.status = "cancelled" ∨ t.status = "paused" then t :: ts
       else { t with status := "completed", endTime := some now } :: ts)
    else t :: downloadWaitOkUpdate taskId now ts

/-! ## Cancellation -/

/-- The scan of CancelTranscode (lines 615-640): the first record with
the matching TaskID is set cancelled with its end time stamped,
whatever its current status (the process kill attempted for a running
task does not touch the store).  none means the id was not found. -/
def cancelTranscodeScan (taskID : String) (now : Nat) :
    List TranscodeTask → Option (List TranscodeTask)
  | [] => none
  | t :: ts =>
    if t.taskID = taskID then some ({ t with status := "cancelled", endTime := now } :: ts)
    else (cancelTranscodeScan taskID now ts).map (fun l => t :: l)

/-- Embedding of CancelTranscode (lines 597-667): an unknown id is an
error and the progress file is not rewritten; otherwise the updated
store is written. -/
def cancelTranscode (taskID : String) (now : Nat) (l : List TranscodeTask) :
    Except String (List TranscodeTask) :=
  match cancelTranscodeScan taskID now l with
  | some l2 => Except.ok l2
  | none => Except.error ("未找到转码任务: " ++ taskID)

/-- The scan of CancelDownload (lines 2580-2617): the first record with
the matching taskId is set cancelled with its end time stamped,
whatever its current status.  (The Go switch on the pid value's dynamic
type cannot take its default branch here, because pids are stored as
numbers; the kill attempt does not touch the store.) -/
def cancelDownloadScan (taskId : String) (now : Nat) :
    List DownloadTask → Option (List DownloadTask)
  | [] => none
  | t :: ts =>
    if t.taskId = taskId then
      some ({ t with status := "cancelled", endTime := some now } :: ts)
    else (cancelDownloadScan taskId now ts).map (fun l => t :: l)

/-- Embedding of CancelDownload (lines 2562-2644): an unknown id is an
error and the progress file is not rewritten; otherwise the updated
store is written. -/
def cancelDownload (taskId : String) (now : Nat) (l : List DownloadTask) :
    Except String (List DownloadTask) :=
  match cancelDownloadScan taskId now l with
  | some l2 => Except.ok l2
  | none => Except.error ("task not found: " ++ taskId)

/-! ## GetTranscodeStatus (lines 538-595) -/

/-- The outcome of reading and JSON-decoding transcode_progress.json:
the file can be missing or unreadable, readable but not valid JSON, or
a list of records. -/
inductive TranscodeFileRead where
  | unreadable
  | unparsable
  | ok (tasks : List TranscodeTask)
  deriving Repr, DecidableEq

/-- The shape of the JSON string GetTranscodeStatus returns: an object
with a tasks list, a single task object, or the empty object "{}".
json.Marshal of these records is modelled as total; the source's
fallbacks on a marshal failure also return a nil error (lines 569-577
fall back to the empty list, line 587 to "{}"). -/
inductive TranscodeStatusResponse where
  | taskList (tasks : List TranscodeTask)
  | singleTask (t : TranscodeTask)
  | emptyObject
  deriving Repr, DecidableEq

/-- Embedding of GetTranscodeStatus (lines 538-595): the JSON response
paired with the returned error value. -/
def getTranscodeStatus (file : TranscodeFileRead) (taskID : String) :
    TranscodeStatusResponse × Option String :=
  match file with
  | .unreadable => (.taskList [], none)
  | .unparsable => (.taskList [], none)
  | .ok tasks =>
    if taskID = "" then (.taskList tasks, none)
    else
      match tasks.find? (fun t => decide (t.taskID = taskID)) with
      | some t => (.singleTask t, none)
      | none => (.emptyObject, none)

/-! ## Concrete records used as test inputs below -/

/-- A concrete download record with the given id, status and start
time, used as a test input in the witness and counterexample theorems
below. -/
def sampleDownload (id status : String) (st : Option Nat) : DownloadTask :=
  { taskId := id, magnetLink := "magnet:?xt=abc", status := status, totalSize := 0,
    downloaded := 0, selectedFiles := [], fileName := "f.mkv", startTime := st,
    outputDir := "./downloads", speed := 0, percentage := Frac.ofInt 0, pid := none,
    endTime := none, lastUpdate := none }

/-- A concrete transcode record with the given id, status and start
time, used as a test input in the witness and counterexample theorems
below. -/
def sampleTranscode (id status : String) (st : Nat) : TranscodeTask :=
  { taskID := id, inputFile := "in.mp4", outputFile := "out.mp4", status := status,
    startTime := st, endTime := 0, progress := Frac.ofInt 0, speed := "",
    timeRemaining := "", ffmpegCommand := "ffmpeg", pid := 0, error := "",
    videoCodec := "", audioCodec := "", resolution := "", bitrate := "" }

end SeedParser

/-! # Theorems -/

/-- Demotion of a single download record is idempotent: a second pass
leaves a demoted record untouched. -/
theorem SeedParser.demoteDownloadTask_idem (n1 n2 : Nat) (t : DownloadTask) :
    demoteDownloadTask n2 (demoteDownloadTask n1 t) = demoteDownloadTask n1 t := by
  by_cases h : t.status = "downloading" <;> simp [demoteDownloadTask, h]

/-- Demotion of a single transcode record is idempotent. -/
theorem SeedParser.demoteTranscodeTask_idem (n1 n2 : Nat) (t : TranscodeTask) :
    demoteTranscodeTask n2 (demoteTranscodeTask n1 t) = demoteTranscodeTask n1 t := by
  by_cases h : t.status = "transcoding" <;> simp [demoteTranscodeTask, h]

/-- A demoted download record is never left in the active status. -/
theorem SeedParser.demoteDownloadTask_not_active (n : Nat) (t : DownloadTask) :
    (demoteDownloadTask n t).status ≠ "downloading" := by
  by_cases h : t.status = "downloading" <;> simp [demoteDownloadTask, h]

/-- A demoted transcode record is never left in the active status. -/
theorem SeedParser.demoteTranscodeTask_not_active (n : Nat) (t : TranscodeTask) :
    (demoteTranscodeTask n t).status ≠ "transcoding" := by
  by_cases h : t.status = "transcoding" <;> simp [demoteTranscodeTask, h]

/-- C4: the startup recovery pass is idempotent on both persisted
stores: a second demotion pass with no intervening process activity
changes nothing, because the first pass left no task in the active
status; and the first pass demotes every active task to waiting with
its pid cleared and its end time stamped, exactly once. -/
theorem SeedParser.recovery_idempotent (n1 n2 m1 m2 : Nat)
    (dl : List DownloadTask) (tl : List TranscodeTask) :
    recoverDownloads n2 (recoverDownloads n1 dl) = recoverDownloads n1 dl ∧
    recoverTranscodes m2 (recoverTranscodes m1 tl) = recoverTranscodes m1 tl ∧
    (∀ t ∈ recoverDownloads n1 dl, t.status ≠ "downloading") ∧
    (∀ t ∈ recoverTranscodes m1 tl, t.status ≠ "transcoding") ∧
    (∀ t ∈ dl, t.status = "downloading" →
      demoteDownloadTask n1 t =
        { t with status := "waiting", endTime := some n1, pid := none }) ∧
    (∀ t ∈ tl, t.status = "transcoding" →
      demoteTranscodeTask m1 t = { t with status := "waiting", endTime := m1, pid := 0 }) := by
  refine ⟨?_, ?_, ?_, ?_, ?_, ?_⟩
  · simp only [recoverDownloads, List.map_map]
    exact List.map_congr_left (fun t _ => demoteDownloadTask_idem n1 n2 t)
  · simp only [recoverTranscodes, List.map_map]
    exact List.map_congr_left (fun t _ => demoteTranscodeTask_idem m1 m2 t)
  · intro t ht
    rcases List.mem_map.mp ht with ⟨u, _, rfl⟩
    exact demoteDownloadTask_not_active n1 u
  · intro t ht
    rcases List.mem_map.mp ht with ⟨u, _, rfl⟩
    exact demoteTranscodeTask_not_active m1 u
  · intro t _ h
    simp [demoteDownloadTask, h]
  · intro t _ h
    simp [demoteTranscodeTask, h]

/-- Witness for C4 at a one-task store per domain, each holding an
orphaned active task. -/
theorem SeedParser.recovery_idempotent_witness :
    recoverDownloads 7 (recoverDownloads 5 [sampleDownload "d1" "downloading" (some 1)]) =
      recoverDownloads 5 [sampleDownload "d1" "downloading" (some 1)] ∧
    recoverTranscodes 7 (recoverTranscodes 5 [sampleTranscode "t1" "transcoding" 1]) =
      recoverTranscodes 5 [sampleTranscode "t1" "transcoding" 1] ∧
    demoteDownloadTask 5 (sampleDownload "d1" "downloading" (some 1)) =
      { sampleDownload "d1" "downloading" (some 1) with
          status := "waiting", endTime := some 5, pid := none } ∧
    demoteTranscodeTask 5 (sampleTranscode "t1" "transcoding" 1) =
      { sampleTranscode "t1" "transcoding" 1 with
          status := "waiting", endTime := 5, pid := 0 } := by
  have h := recovery_idempotent 5 7 5 7 [sampleDownload "d1" "downloading" (some 1)]
    [sampleTranscode "t1" "transcoding" 1]
  exact ⟨h.1, h.2.1,
    h.2.2.2.2.1 _ (List.mem_singleton.mpr rfl) rfl,
    h.2.2.2.2.2 _ (List.mem_singleton.mpr rfl) rfl⟩

/-- The cancel scan of the transcode store reports failure exactly when
the id is absent. -/
theorem SeedParser.cancelTranscodeScan_eq_none (taskID : String) (now : Nat)
    (l : List TranscodeTask) (h : ∀ t ∈ l, t.taskID ≠ taskID) :
    cancelTranscodeScan taskID now l = none := by
  induction l with
  | nil => rfl
  | cons t ts ih =>
    have ht : ¬ t.taskID = taskID := h t (List.mem_cons_self t ts)
    simp only [cancelTranscodeScan, if_neg ht,
      ih (fun u hu => h u (List.mem_cons_of_mem t hu))]
    rfl

/-- The cancel scan of the download store reports failure exactly when
the id is absent. -/
theorem SeedParser.cancelDownloadScan_eq_none (taskId : String) (now : Nat)
    (l : List DownloadTask) (h : ∀ t ∈ l, t.taskId ≠ taskId) :
    cancelDownloadScan taskId now l = none := by
  induction l with
  | nil => rfl
  | cons t ts ih =>
    have ht : ¬ t.taskId = taskId := h t (List.mem_cons_self t ts)
    simp only [cancelDownloadScan, if_neg ht,
      ih (fun u hu => h u (List.mem_cons_of_mem t hu))]
    rfl

/-- C9: cancel is atomic on failure in both domains: when no task with
the given id exists, CancelDownload and CancelTranscode return an error
before any write, so the persisted store is exactly as it was. -/
theorem SeedParser.cancel_atomic_on_failure (taskId : String) (now : Nat)
    (dl : List DownloadTask) (tl : List TranscodeTask)
    (hd : ∀ t ∈ dl, t.taskId ≠ taskId) (ht : ∀ t ∈ tl, t.taskID ≠ taskId) :
    cancelDownload taskId now dl = Except.error ("task not found: " ++ taskId) ∧
    cancelTranscode taskId now tl = Except.error ("未找到转码任务: " ++ taskId) := by
  constructor
  · rw [cancelDownload, cancelDownloadScan_eq_none taskId now dl hd]
  · rw [cancelTranscode, cancelTranscodeScan_eq_none taskId now tl ht]

/-- Witness for C9: cancelling an id absent from both one-task stores
errors out and rewrites nothing. -/
theorem SeedParser.cancel_atomic_on_failure_witness :
    cancelDownload "nope" 3 [sampleDownload "d1" "completed" (some 1)] =
      Except.error ("task not found: " ++ "nope") ∧
    cancelTranscode "nope" 3 [sampleTranscode "t1" "completed" 1] =
      Except.error ("未找到转码任务: " ++ "nope") :=
  cancel_atomic_on_failure "nope" 3 [sampleDownload "d1" "completed" (some 1)]
    [sampleTranscode "t1" "completed" 1] (by decide) (by decide)

/-- C10: GetTranscodeStatus never returns an error: a missing,
unreadable or unparsable progress file yields the empty task list with
a nil error, an empty task id yields all tasks, and an id not present
in the store yields the empty JSON object, always with a nil error. -/
theorem SeedParser.getTranscodeStatus_total (file : TranscodeFileRead) (taskID : String) :
    (getTranscodeStatus file taskID).2 = none ∧
    (getTranscodeStatus .unreadable taskID).1 = .taskList [] ∧
    (getTranscodeStatus .unparsable taskID).1 = .taskList [] ∧
    (∀ tasks, (getTranscodeStatus (.ok tasks) "").1 = .taskList tasks) ∧
    (∀ tasks, taskID ≠ "" → (∀ t ∈ tasks, t.taskID ≠ taskID) →
      (getTranscodeStatus (.ok tasks) taskID).1 = .emptyObject) := by
  refine ⟨?_, rfl, rfl, fun tasks => rfl, ?_⟩
  · cases file with
    | unreadable => rfl
    | unparsable => rfl
    | ok tasks =>
      by_cases h : taskID = ""
      · rw [getTranscodeStatus, if_pos h]
      · rw [getTranscodeStatus, if_neg h]
        cases tasks.find? (fun t => decide (t.taskID = taskID)) <;> rfl
  · intro tasks hne hnot
    have hf : tasks.find? (fun t => decide (t.taskID = taskID)) = none := by
      rw [List.find?_eq_none]
      intro t ht
      simpa using hnot t ht
    rw [getTranscodeStatus, if_neg hne, hf]

/-- Witness for C10 at a one-task store and an id that is not in it. -/
theorem SeedParser.getTranscodeStatus_total_witness :
    (getTranscodeStatus (.ok [sampleTranscode "t1" "waiting" 1]) "zz").2 = none ∧
    (getTranscodeStatus (.ok [sampleTranscode "t1" "waiting" 1]) "zz").1 = .emptyObject := by
  have h := getTranscodeStatus_total (.ok [sampleTranscode "t1" "waiting" 1]) "zz"
  exact ⟨h.1, h.2.2.2.2 [sampleTranscode "t1" "waiting" 1] (by decide) (by decide)⟩

/-- C2: the exit transition must not overwrite a terminal state written
by a concurrent cancel.  The download monitor does preserve an already
cancelled or paused record on both exit paths, but the transcode
monitor consults nothing: at the input below the record is already
cancelled when the wait returns, and the exit transition overwrites it
with failed (error exit) or completed (clean exit). -/
theorem SeedParser.monitorTranscodeExit_overwrites_cancelled :
    (monitorTranscodeExit "t1" 100 (some "exit status 1")
        [sampleTranscode "t1" "cancelled" 1]).map (fun t => t.status) = ["failed"] ∧
    (monitorTranscodeExit "t1" 100 none
        [sampleTranscode "t1" "cancelled" 1]).map (fun t => t.status) = ["completed"] ∧
    (downloadWaitErrUpdate "d1" 100
        [sampleDownload "d1" "cancelled" (some 1)]).map (fun t => t.status) = ["cancelled"] ∧
    (downloadWaitOkUpdate "d1" 100
        [sampleDownload "d1" "cancelled" (some 1)]).map (fun t => t.status) = ["cancelled"] ∧
    (downloadWaitErrUpdate "d1" 100
        [sampleDownload "d1" "paused" (some 1)]).map (fun t => t.status) = ["paused"] ∧
    (downloadWaitOkUpdate "d1" 100
        [sampleDownload "d1" "paused" (some 1)]).map (fun t => t.status) = ["paused"] := by
  decide

/-- Localization of the transcode cancel scan at the first matching
record. -/
theorem SeedParser.cancelTranscodeScan_append (now : Nat) (t : TranscodeTask)
    (l1 l2 : List TranscodeTask) (h : ∀ u ∈ l1, u.taskID ≠ t.taskID) :
    cancelTranscodeScan t.taskID now (l1 ++ t :: l2) =
      some (l1 ++ { t with status := "cancelled", endTime := now } :: l2) := by
  induction l1 with
  | nil => simp [cancelTranscodeScan]
  | cons u us ih =>
    have hu : ¬ u.taskID = t.taskID := h u (List.mem_cons_self u us)
    have ih2 := ih (fun v hv => h v (List.mem_cons_of_mem u hv))
    simp [cancelTranscodeScan, hu, ih2]

/-- Localization of the download cancel scan at the first matching
record. -/
theorem SeedParser.cancelDownloadScan_append (now : Nat) (d : DownloadTask)
    (l1 l2 : List DownloadTask) (h : ∀ u ∈ l1, u.taskId ≠ d.taskId) :
    cancelDownloadScan d.taskId now (l1 ++ d :: l2) =
      some (l1 ++ { d with status := "cancelled", endTime := some now } :: l2) := by
  induction l1 with
  | nil => simp [cancelDownloadScan]
  | cons u us ih =>
    have hu : ¬ u.taskId = d.taskId := h u (List.mem_cons_self u us)
    have ih2 := ih (fun v hv => h v (List.mem_cons_of_mem u hv))
    simp [cancelDownloadScan, hu, ih2]

/-- C8 counterexample: cancel is not a no-op on terminal tasks.
Cancelling a completed download rewrites its record to cancelled (with
a fresh end time), and likewise a failed transcode record, contradicting
the claim that a terminal record is left unchanged. -/
theorem SeedParser.cancel_not_idempotent_on_terminal :
    (sampleDownload "d1" "completed" (some 1)).status = "completed" ∧
    cancelDownload "d1" 9 [sampleDownload "d1" "completed" (some 1)] =
      Except.ok [{ sampleDownload "d1" "completed" (some 1) with
        status := "cancelled", endTime := some 9 }] ∧
    (sampleTranscode "t1" "failed" 1).status = "failed" ∧
    cancelTranscode "t1" 9 [sampleTranscode "t1" "failed" 1] =
      Except.ok [{ sampleTranscode "t1" "failed" 1 with
        status := "cancelled", endTime := 9 }] := by
  exact ⟨rfl, rfl, rfl, rfl⟩

/-- C8 as amended: cancel succeeds on any present id and rewrites the
first matching record to cancelled with a fresh end time, whatever its
status: a completed or failed task is changed to cancelled, and only an
already cancelled task keeps its status (its end time is still
refreshed). -/
theorem SeedParser.cancel_overwrites_first_match (now : Nat) (t : TranscodeTask)
    (d : DownloadTask) (l1 l2 : List TranscodeTask) (d1 d2 : List DownloadTask)
    (h1 : ∀ u ∈ l1, u.taskID ≠ t.taskID) (h2 : ∀ u ∈ d1, u.taskId ≠ d.taskId) :
    cancelTranscode t.taskID now (l1 ++ t :: l2) =
      Except.ok (l1 ++ { t with status := "cancelled", endTime := now } :: l2) ∧
    cancelDownload d.taskId now (d1 ++ d :: d2) =
      Except.ok (d1 ++ { d with status := "cancelled", endTime := some now } :: d2) := by
  constructor
  · rw [cancelTranscode, cancelTranscodeScan_append now t l1 l2 h1]
  · rw [cancelDownload, cancelDownloadScan_append now d d1 d2 h2]

/-- Witness for the amended C8 at concrete two-task stores whose
matched record is terminal. -/
theorem SeedParser.cancel_overwrites_first_match_witness :
    cancelTranscode "t1" 9 [sampleTranscode "t0" "waiting" 0, sampleTranscode "t1" "completed" 1] =
      Except.ok [sampleTranscode "t0" "waiting" 0,
        { sampleTranscode "t1" "completed" 1 with status := "cancelled", endTime := 9 }] ∧
    cancelDownload "d1" 9 [sampleDownload "d0" "waiting" (some 0),
        sampleDownload "d1" "failed" (some 1)] =
      Except.ok [sampleDownload "d0" "waiting" (some 0),
        { sampleDownload "d1" "failed" (some 1) with
          status := "cancelled", endTime := some 9 }] := by
  have h := cancel_overwrites_first_match 9 (sampleTranscode "t1" "completed" 1)
    (sampleDownload "d1" "failed" (some 1)) [sampleTranscode "t0" "waiting" 0] []
    [sampleDownload "d0" "waiting" (some 0)] [] (by decide) (by decide)
  exact h

/-- Localization of the transcode exit transition at the first matching
record. -/
theorem SeedParser.monitorTranscodeExit_append (taskID : String) (now : Nat)
    (cmdErr : Option String) (t : TranscodeTask) (l1 l2 : List TranscodeTask)
    (hid : t.taskID = taskID) (h : ∀ u ∈ l1, u.taskID ≠ taskID) :
    monitorTranscodeExit taskID now cmdErr (l1 ++ t :: l2) =
      l1 ++ transcodeExitApply now cmdErr t :: l2 := by
  induction l1 with
  | nil => simp [monitorTranscodeExit, hid]
  | cons u us ih =>
    have hu : ¬ u.taskID = taskID := h u (List.mem_cons_self u us)
    have ih2 := ih (fun v hv => h v (List.mem_cons_of_mem u hv))
    simp [monitorTranscodeExit, hu, ih2]

/-- Localization of the download wait-error transition at the first
matching record, when that record is not already cancelled or paused. -/
theorem SeedParser.downloadWaitErrUpdate_append (taskId : String) (now : Nat)
    (d : DownloadTask) (l1 l2 : List DownloadTask) (hid : d.taskId = taskId)
    (h : ∀ u ∈ l1, u.taskId ≠ taskId)
    (hterm : ¬(d.status = "cancelled" ∨ d.status = "paused")) :
    downloadWaitErrUpdate taskId now (l1 ++ d :: l2) =
      l1 ++ { d with status := "waiting", endTime := some now, pid := none } :: l2 := by
  induction l1 with
  | nil => simp [downloadWaitErrUpdate, hid, hterm]
  | cons u us ih =>
    have hu : ¬ u.taskId = taskId := h u (List.mem_cons_self u us)
    have ih2 := ih (fun v hv => h v (List.mem_cons_of_mem u hv))
    simp [downloadWaitErrUpdate, hu, ih2]

/-- Localization of the download clean-exit transition at the first
matching record, when that record is not already cancelled or paused. -/
theorem SeedParser.downloadWaitOkUpdate_append (taskId : String) (now : Nat)
    (d : DownloadTask) (l1 l2 : List DownloadTask) (hid : d.taskId = taskId)
    (h : ∀ u ∈ l1, u.taskId ≠ taskId)
    (hterm : ¬(d.status = "cancelled" ∨ d.status = "paused")) :
    downloadWaitOkUpdate taskId now (l1 ++ d :: l2) =
      l1 ++ { d with status := "completed", endTime := some now } :: l2 := by
  induction l1 with
  | nil => simp [downloadWaitOkUpdate, hid, hterm]
  | cons u us ih =>
    have hu : ¬ u.taskId = taskId := h u (List.mem_cons_self u us)
    have ih2 := ih (fun v hv => h v (List.mem_cons_of_mem u hv))
    simp [downloadWaitOkUpdate, hu, ih2]

/-- C3 counterexample: in the download domain a wait error does not set
the task failed — the record is put back to waiting (with its pid key
deleted) — and a clean exit sets completed without forcing the progress
fraction to 1: the percentage below stays 1/2. -/
theorem SeedParser.downloadExit_not_as_claimed :
    (downloadWaitErrUpdate "d1" 9
        [sampleDownload "d1" "downloading" (some 1)]).map (fun t => t.status) = ["waiting"] ∧
    (["waiting"] : List String) ≠ ["failed"] ∧
    (downloadWaitOkUpdate "d1" 9
        [{ sampleDownload "d1" "downloading" (some 1) with
           percentage := ⟨1, 2⟩ }]).map (fun t => (t.status, t.percentage)) =
      [("completed", (⟨1, 2⟩ : Frac))] := by
  decide

/-- C3 as amended: in the transcode domain the claim holds — when no
concurrent cancel intervened, a wait error sets the first matching
record failed, keeping an already recorded error text and otherwise
storing the wait error, and a clean exit sets it completed with
progress forced to 1.  In the download domain, when the record is not
already cancelled or paused, a wait error re-queues the task as waiting
with its pid cleared (it is not marked failed), and a clean exit marks
it completed without touching the recorded percentage. -/
theorem SeedParser.exit_outcome_transitions (now : Nat) (e : String)
    (t : TranscodeTask) (d : DownloadTask) (l1 l2 : List TranscodeTask)
    (d1 d2 : List DownloadTask) (ht : ∀ u ∈ l1, u.taskID ≠ t.taskID)
    (hd : ∀ u ∈ d1, u.taskId ≠ d.taskId)
    (hterm : ¬(d.status = "cancelled" ∨ d.status = "paused")) :
    monitorTranscodeExit t.taskID now (some e) (l1 ++ t :: l2) =
      l1 ++ { t with
        status := "failed",
        error := if t.error = "" then e else t.error,
        endTime := now } :: l2 ∧
    monitorTranscodeExit t.taskID now none (l1 ++ t :: l2) =
      l1 ++ { t with status := "completed", progress := Frac.ofInt 1, endTime := now } :: l2 ∧
    downloadWaitErrUpdate d.taskId now (d1 ++ d :: d2) =
      d1 ++ { d with status := "waiting", endTime := some now, pid := none } :: d2 ∧
    downloadWaitOkUpdate d.taskId now (d1 ++ d :: d2) =
      d1 ++ { d with status := "completed", endTime := some now } :: d2 := by
  refine ⟨?_, ?_, ?_, ?_⟩
  · rw [monitorTranscodeExit_append t.taskID now (some e) t l1 l2 rfl ht]
    rfl
  · rw [monitorTranscodeExit_append t.taskID now none t l1 l2 rfl ht]
    rfl
  · exact downloadWaitErrUpdate_append d.taskId now d d1 d2 rfl hd hterm
  · exact downloadWaitOkUpdate_append d.taskId now d d1 d2 rfl hd hterm

/-- Witness for the amended C3 at concrete one- and two-task stores. -/
theorem SeedParser.exit_outcome_transitions_witness :
    monitorTranscodeExit "t1" 9 (some "exit status 1")
        [sampleTranscode "t0" "completed" 0, sampleTranscode "t1" "transcoding" 1] =
      [sampleTranscode "t0" "completed" 0,
        { sampleTranscode "t1" "transcoding" 1 with
          status := "failed",
          error := if (sampleTranscode "t1" "transcoding" 1).error = "" then "exit status 1"
            else (sampleTranscode "t1" "transcoding" 1).error,
          endTime := 9 }] ∧
    monitorTranscodeExit "t1" 9 none
        [sampleTranscode "t0" "completed" 0, sampleTranscode "t1" "transcoding" 1] =
      [sampleTranscode "t0" "completed" 0,
        { sampleTranscode "t1" "transcoding" 1 with
          status := "completed", progress := Frac.ofInt 1, endTime := 9 }] ∧
    downloadWaitErrUpdate "d1" 9 [sampleDownload "d1" "downloading" (some 1)] =
      [{ sampleDownload "d1" "downloading" (some 1) with
          status := "waiting", endTime := some 9, pid := none }] ∧
    downloadWaitOkUpdate "d1" 9 [sampleDownload "d1" "downloading" (some 1)] =
      [{ sampleDownload "d1" "downloading" (some 1) with
          status := "completed", endTime := some 9 }] := by
  have h := exit_outcome_transitions 9 "exit status 1"
    (sampleTranscode "t1" "transcoding" 1) (sampleDownload "d1" "downloading" (some 1))
    [sampleTranscode "t0" "completed" 0] [] [] [] (by decide) (by decide) (by decide)
  exact h

/-- Counting download statuses distributes over append. -/
theorem SeedParser.countStatusD_append (l1 l2 : List DownloadTask) (s : String) :
    countStatusD (l1 ++ l2) s = countStatusD l1 s + countStatusD l2 s := by
  induction l1 with
  | nil => simp [countStatusD]
  | cons t ts ih => simp [countStatusD, ih, Nat.add_assoc]

/-- Counting transcode statuses distributes over append. -/
theorem SeedParser.countStatusT_append (l1 l2 : List TranscodeTask) (s : String) :
    countStatusT (l1 ++ l2) s = countStatusT l1 s + countStatusT l2 s := by
  induction l1 with
  | nil => simp [countStatusT]
  | cons t ts ih => simp [countStatusT, ih, Nat.add_assoc]

/-- A download store whose active-status scan is negative holds no
downloading task. -/
theorem SeedParser.hasDownloadingTask_eq_false (l : List DownloadTask)
    (h : hasDownloadingTask l = false) : countStatusD l "downloading" = 0 := by
  induction l with
  | nil => rfl
  | cons t ts ih =>
    simp only [hasDownloadingTask, List.any_cons, Bool.or_eq_false_iff] at h
    have h1 : ¬ t.status = "downloading" := by simpa using h.1
    have h2 := ih (by simpa [hasDownloadingTask] using h.2)
    simp [countStatusD, h1, h2]

/-- A transcode store whose active-status scan is negative holds no
transcoding task. -/
theorem SeedParser.hasTranscodingTask_eq_false (l : List TranscodeTask)
    (h : hasTranscodingTask l = false) : countStatusT l "transcoding" = 0 := by
  induction l with
  | nil => rfl
  | cons t ts ih =>
    simp only [hasTranscodingTask, List.any_cons, Bool.or_eq_false_iff] at h
    have h1 : ¬ t.status = "transcoding" := by simpa using h.1
    have h2 := ih (by simpa [hasTranscodingTask] using h.2)
    simp [countStatusT, h1, h2]

/-- Marking one download record active raises the number of active
records by at most one. -/
theorem SeedParser.markDownloading_count (taskId : String) (pid : Int)
    (l : List DownloadTask) :
    countStatusD (markDownloading taskId pid l) "downloading" ≤
      countStatusD l "downloading" + 1 := by
  induction l with
  | nil => simp [markDownloading, countStatusD]
  | cons t ts ih =>
    by_cases h : t.taskId = taskId <;> by_cases h2 : t.status = "downloading" <;>
      simp [markDownloading, h, countStatusD, h2] <;> omega

/-- Marking one transcode record active raises the number of active
records by at most one. -/
theorem SeedParser.markTranscoding_count (taskID : String) (pid : Int) (now : Nat)
    (l : List TranscodeTask) :
    countStatusT (markTranscoding taskID pid now l) "transcoding" ≤
      countStatusT l "transcoding" + 1 := by
  induction l with
  | nil => simp [markTranscoding, countStatusT]
  | cons t ts ih =>
    by_cases h : t.taskID = taskID <;> by_cases h2 : t.status = "transcoding" <;>
      simp [markTranscoding, h, countStatusT, h2] <;> omega

/-- Every store snapshot written by the download promote-next operation
has at most one downloading task: a task is only started after the scan
found no downloading task. -/
theorem SeedParser.startNextWaitingTaskWrites_bound (pid : Int) (l : List DownloadTask) :
    ∀ w ∈ startNextWaitingTaskWrites pid l, countStatusD w "downloading" ≤ 1 := by
  intro w hw
  cases hcase : hasDownloadingTask l with
  | true => simp [startNextWaitingTaskWrites, hcase] at hw
  | false =>
    have h0 := hasDownloadingTask_eq_false l hcase
    simp only [startNextWaitingTaskWrites, hcase] at hw
    cases hfw : firstWaitingDownload l with
    | none => simp [hfw] at hw
    | some t =>
      simp only [hfw, Bool.false_eq_true, if_false, List.mem_singleton] at hw
      subst hw
      have hm := markDownloading_count t.taskId pid l
      omega

/-- Every store snapshot written by the transcode promote-next
operation has at most one transcoding task. -/
theorem SeedParser.startNextTranscodeTaskWrites_bound (pid : Int) (now : Nat)
    (l : List TranscodeTask) :
    ∀ w ∈ startNextTranscodeTaskWrites pid now l, countStatusT w "transcoding" ≤ 1 := by
  intro w hw
  cases hcase : hasTranscodingTask l with
  | true => simp [startNextTranscodeTaskWrites, hcase] at hw
  | false =>
    have h0 := hasTranscodingTask_eq_false l hcase
    simp only [startNextTranscodeTaskWrites, hcase] at hw
    cases hfw : firstWaitingTranscode l with
    | none => simp [hfw] at hw
    | some t =>
      simp only [hfw, Bool.false_eq_true, if_false, List.mem_singleton] at hw
      subst hw
      have hm := markTranscoding_count t.taskID pid now l
      omega

/-- C1: in each domain, every persisted snapshot written by an enqueue
or promote-next operation has at most one task in the active status,
provided the store it started from had at most one: a new task is
started only after the current list was scanned and no task was found
already downloading (resp. transcoding). -/
theorem SeedParser.at_most_one_active (taskId magnetLink : String)
    (selectedFiles : List String) (fileName : String) (now now2 : Nat)
    (outputDir : String) (pid : Int) (tid tin tout tvc tac tres tbr tcmd : String)
    (dl : List DownloadTask) (tl : List TranscodeTask)
    (hd : countStatusD dl "downloading" ≤ 1) (ht : countStatusT tl "transcoding" ≤ 1) :
    (∀ w ∈ downloadTorrentFilesWrites taskId magnetLink selectedFiles fileName now
        outputDir pid dl, countStatusD w "downloading" ≤ 1) ∧
    (∀ w ∈ startNextWaitingTaskWrites pid dl, countStatusD w "downloading" ≤ 1) ∧
    (∀ w ∈ addTranscodeTaskWrites tid tin tout tvc tac tres tbr tcmd now now2 pid tl,
      countStatusT w "transcoding" ≤ 1) ∧
    (∀ w ∈ startNextTranscodeTaskWrites pid now2 tl, countStatusT w "transcoding" ≤ 1) := by
  have hnewD : countStatusD
      [initialProgress taskId magnetLink selectedFiles fileName now outputDir]
      "downloading" = 0 := rfl
  have hnewT : countStatusT
      [newTranscodeTask tid tin tout tvc tac tres tbr tcmd now] "transcoding" = 0 := rfl
  refine ⟨?_, startNextWaitingTaskWrites_bound pid dl, ?_,
    startNextTranscodeTaskWrites_bound pid now2 tl⟩
  · intro w hw
    have hl1 : countStatusD
        (dl ++ [initialProgress taskId magnetLink selectedFiles fileName now outputDir])
        "downloading" = countStatusD dl "downloading" := by
      rw [countStatusD_append, hnewD]
      omega
    cases hcase : hasDownloadingTask dl with
    | true =>
      simp only [downloadTorrentFilesWrites, hcase, if_true, List.mem_singleton] at hw
      subst hw
      omega
    | false =>
      have h0 := hasDownloadingTask_eq_false dl hcase
      simp only [downloadTorrentFilesWrites, hcase, Bool.false_eq_true, if_false,
        List.mem_cons, List.mem_singleton] at hw
      rcases hw with rfl | rfl | hfalse
      · omega
      · have hm := markDownloading_count taskId pid
          (dl ++ [initialProgress taskId magnetLink selectedFiles fileName now outputDir])
        omega
      · exact absurd hfalse (List.not_mem_nil w)
  · intro w hw
    have hl1 : countStatusT
        (tl ++ [newTranscodeTask tid tin tout tvc tac tres tbr tcmd now])
        "transcoding" = countStatusT tl "transcoding" := by
      rw [countStatusT_append, hnewT]
      omega
    cases hcase : hasTranscodingTask tl with
    | true =>
      simp only [addTranscodeTaskWrites, hcase, if_true, List.mem_singleton] at hw
      subst hw
      omega
    | false =>
      simp only [addTranscodeTaskWrites, hcase, Bool.false_eq_true, if_false,
        List.mem_cons] at hw
      rcases hw with rfl | hw
      · have h0 := hasTranscodingTask_eq_false tl hcase
        omega
      · exact startNextTranscodeTaskWrites_bound pid now2 _ w hw

/-- Witness for C1: the snapshots in which the enqueued task was
started hold exactly one active task, in both domains. -/
theorem SeedParser.at_most_one_active_witness :
    countStatusD (markDownloading "d2" 77
      ([sampleDownload "d1" "completed" (some 1)] ++
        [initialProgress "d2" "magnet:?xt=abc" [] "f.mkv" 5 "./downloads"]))
      "downloading" ≤ 1 ∧
    countStatusT (markTranscoding "t2" 77 6
      ([sampleTranscode "t1" "failed" 1] ++
        [newTranscodeTask "t2" "in.mp4" "out.mp4" "" "" "" "" "cmd" 5]))
      "transcoding" ≤ 1 := by
  have h := at_most_one_active "d2" "magnet:?xt=abc" [] "f.mkv" 5 6 "./downloads" 77
    "t2" "in.mp4" "out.mp4" "" "" "" "" "cmd"
    [sampleDownload "d1" "completed" (some 1)] [sampleTranscode "t1" "failed" 1]
    (by decide) (by decide)
  exact ⟨h.1 _ (by decide), h.2.2.1 _ (by decide)⟩

/-- A fraction with nonnegative numerator has nonnegative value. -/
theorem SeedParser.Frac.toRat_nonneg (a : Frac) (h : 0 ≤ a.num) : 0 ≤ a.toRat := by
  unfold Frac.toRat
  apply div_nonneg
  · exact_mod_cast h
  · positivity

/-- A fraction whose numerator is at most its positive denominator has
value at most one. -/
theorem SeedParser.Frac.toRat_le_one (a : Frac) (hd : 0 < a.den)
    (h : a.num ≤ (a.den : Int)) : a.toRat ≤ 1 := by
  unfold Frac.toRat
  rw [div_le_one (by exact_mod_cast hd)]
  exact_mod_cast h

/-- Conversely, value at most one bounds the numerator by the positive
denominator. -/
theorem SeedParser.Frac.num_le_den (a : Frac) (hd : 0 < a.den) (h : a.toRat ≤ 1) :
    a.num ≤ (a.den : Int) := by
  unfold Frac.toRat at h
  rw [div_le_one (by exact_mod_cast hd)] at h
  exact_mod_cast h

/-- Cross-multiplied bound for the 0.99 cap. -/
theorem SeedParser.Frac.toRat_le_99 (a : Frac) (hd : 0 < a.den)
    (h : a.num * 100 ≤ 99 * (a.den : Int)) : a.toRat ≤ 99 / 100 := by
  unfold Frac.toRat
  rw [div_le_div_iff₀ (by exact_mod_cast hd) (by norm_num)]
  exact_mod_cast h

/-- Division keeps the denominator positive. -/
theorem SeedParser.Frac.div_denPos (a b : Frac) (ha : 0 < a.den) : 0 < (a.div b).den := by
  unfold Frac.div
  by_cases h0 : b.num = 0
  · simp [h0]
  · by_cases hneg : b.num < 0
    · simp only [h0, hneg, if_true, if_false]
      exact Nat.mul_pos ha (Int.natAbs_pos.mpr h0)
    · simp only [h0, hneg, if_false]
      exact Nat.mul_pos ha (Int.natAbs_pos.mpr h0)

/-- Addition keeps the denominator positive. -/
theorem SeedParser.Frac.add_denPos (a b : Frac) (ha : 0 < a.den) (hb : 0 < b.den) :
    0 < (a.add b).den := Nat.mul_pos ha hb

/-- The [0,1] clamp keeps the denominator positive. -/
theorem SeedParser.clamp01_denPos (p : Frac) (hd : 0 < p.den) : 0 < (clamp01 p).den := by
  unfold clamp01
  by_cases h1 : p.blt (Frac.ofInt 0) = true
  · rw [if_pos h1]
    norm_num [Frac.ofInt]
  · rw [if_neg h1]
    by_cases h2 : (Frac.ofInt 1).blt p = true
    · rw [if_pos h2]
      norm_num [Frac.ofInt]
    · rw [if_neg h2]
      exact hd

/-- The [0,1] clamp delivers a value in [0,1]. -/
theorem SeedParser.clamp01_bounds (p : Frac) (hd : 0 < p.den) :
    0 ≤ (clamp01 p).toRat ∧ (clamp01 p).toRat ≤ 1 := by
  unfold clamp01
  by_cases h1 : p.blt (Frac.ofInt 0) = true
  · simp only [h1, if_true]
    constructor <;> norm_num [Frac.toRat, Frac.ofInt]
  · by_cases h2 : (Frac.ofInt 1).blt p = true
    · simp only [h1, h2, if_true, if_false]
      constructor <;> norm_num [Frac.toRat, Frac.ofInt]
    · simp only [h1, h2, if_false]
      have hnum : 0 ≤ p.num := by
        simp [Frac.blt, Frac.ofInt] at h1
        omega
      have hle : p.num ≤ (p.den : Int) := by
        simp [Frac.blt, Frac.ofInt] at h2
        omega
      exact ⟨Frac.toRat_nonneg p hnum, Frac.toRat_le_one p hd hle⟩

/-- A fraction capped at 99/100 and then clamped to [0,1] stays at most
99/100. -/
theorem SeedParser.clamp01_cap_le_99 (p : Frac) (hd : 0 < p.den) :
    (clamp01 (if Frac.blt ⟨99, 100⟩ p then ⟨99, 100⟩ else p)).toRat ≤ 99 / 100 := by
  by_cases hb : Frac.blt ⟨99, 100⟩ p = true
  · rw [if_pos hb]
    norm_num [clamp01, Frac.blt, Frac.toRat, Frac.ofInt]
  · rw [if_neg hb]
    have hcross : p.num * 100 ≤ 99 * (p.den : Int) := by
      simp [Frac.blt] at hb
      omega
    unfold clamp01
    by_cases h1 : p.blt (Frac.ofInt 0) = true
    · simp only [h1, if_true]
      norm_num [Frac.toRat, Frac.ofInt]
    · by_cases h2 : (Frac.ofInt 1).blt p = true
      · exfalso
        simp [Frac.blt, Frac.ofInt] at h2
        omega
      · simp only [h1, h2, if_false]
        exact Frac.toRat_le_99 p hd hcross

/-- The three-tier computation always ends in the [0,1] clamp of a
fraction with positive denominator. -/
theorem SeedParser.calcProgress_shape (s : MonState) (hp : 0 < s.currentProgress.den)
    (ht : 0 < s.totalDuration.den) (hc : 0 < s.currentTime.den) :
    ∃ p : Frac, 0 < p.den ∧ (calcProgress s).1 = clamp01 p := by
  rw [calcProgress]
  by_cases hg : (s.hasTotalDuration && (Frac.ofInt 0).blt s.totalDuration
      && (Frac.ofInt 0).blt s.currentTime) = true
  · rw [if_pos hg]
    refine ⟨(if s.totalDuration.blt s.currentTime then s.totalDuration
      else s.currentTime).div s.totalDuration, ?_, rfl⟩
    apply Frac.div_denPos
    by_cases hb : s.totalDuration.blt s.currentTime = true
    · rw [if_pos hb]; exact ht
    · rw [if_neg hb]; exact hc
  · rw [if_neg hg]
    by_cases hf : 0 < s.currentFrame
    · rw [if_pos hf]
      refine ⟨_, ?_, rfl⟩
      by_cases hb : Frac.blt ⟨99, 100⟩
          ((Frac.ofInt s.currentFrame).div (Frac.ofInt 100000)) = true
      · rw [if_pos hb]; norm_num
      · rw [if_neg hb]
        exact Frac.div_denPos _ _ (by norm_num [Frac.ofInt])
    · rw [if_neg hf]
      refine ⟨_, ?_, rfl⟩
      by_cases hb : Frac.blt ⟨99, 100⟩ (s.currentProgress.add ⟨1, 1000⟩) = true
      · rw [if_pos hb]; norm_num
      · rw [if_neg hb]
        exact Frac.add_denPos _ _ hp (by norm_num)

/-- When the elapsed/total tier is not taken, the computation is the
[0,1] clamp of a fraction first capped at 99/100. -/
theorem SeedParser.calcProgress_shape_cap (s : MonState) (hp : 0 < s.currentProgress.den)
    (hg : (s.hasTotalDuration && (Frac.ofInt 0).blt s.totalDuration
      && (Frac.ofInt 0).blt s.currentTime) = false) :
    ∃ p : Frac, 0 < p.den ∧
      (calcProgress s).1 = clamp01 (if Frac.blt ⟨99, 100⟩ p then ⟨99, 100⟩ else p) := by
  rw [calcProgress, if_neg (by simp [hg])]
  by_cases hf : 0 < s.currentFrame
  · rw [if_pos hf]
    exact ⟨(Frac.ofInt s.currentFrame).div (Frac.ofInt 100000),
      Frac.div_denPos _ _ (by norm_num [Frac.ofInt]), rfl⟩
  · rw [if_neg hf]
    exact ⟨s.currentProgress.add ⟨1, 1000⟩, Frac.add_denPos _ _ hp (by norm_num), rfl⟩

/-- C5 counterexample: the elapsed/total tier is not capped at 0.99.
Feeding the single stdout line out_time=00:00:10.0 to a monitor that
knows a total duration of 10 seconds — with no progress=end marker —
commits the fraction 100/100, whose value is exactly 1 and exceeds
0.99. -/
theorem SeedParser.time_tier_exceeds_99_before_end :
    (stdoutStep "out_time=00:00:10.0"
        { MonState.init with hasTotalDuration := true, totalDuration := Frac.ofInt 10 }).2 =
      [TUpdate.prog ⟨100, 100⟩ ""] ∧
    Frac.beq ⟨100, 100⟩ (Frac.ofInt 1) = true ∧
    Frac.blt ⟨99, 100⟩ ⟨100, 100⟩ = true := by
  decide

/-- C5 as amended: every fraction the three-tier fallback computes is
clamped to [0,1], and the frame-count and fixed-increment tiers are
further capped at 0.99; but the elapsed/total tier is clamped only by
capping the elapsed time at the total duration, so it reaches the value
1 exactly (not 0.99) as soon as the elapsed time reaches the total,
even before any progress=end marker; the end marker itself always
leaves the committed fraction at exactly 1. -/
theorem SeedParser.progress_clamping (s : MonState) (hp : 0 < s.currentProgress.den)
    (ht : 0 < s.totalDuration.den) (hc : 0 < s.currentTime.den) :
    (0 ≤ (calcProgress s).1.toRat ∧ (calcProgress s).1.toRat ≤ 1) ∧
    ((s.hasTotalDuration && (Frac.ofInt 0).blt s.totalDuration
        && (Frac.ofInt 0).blt s.currentTime) = false →
      (calcProgress s).1.toRat ≤ 99 / 100) ∧
    (stdoutStep "progress=end" s).1.currentProgress.toRat = 1 := by
  refine ⟨?_, ?_, ?_⟩
  · obtain ⟨p, hpd, hcp⟩ := calcProgress_shape s hp ht hc
    rw [hcp]
    exact clamp01_bounds p hpd
  · intro hg
    obtain ⟨p, hpd, hcp⟩ := calcProgress_shape_cap s hp hg
    rw [hcp]
    exact clamp01_cap_le_99 p hpd
  · have hstep : stdoutStep "progress=end" s =
        (if ((Frac.ofInt 1).add ⟨5, 1000⟩).blt
              (calcProgress { s with currentProgress := Frac.ofInt 1 }).1
            || (calcProgress { s with currentProgress := Frac.ofInt 1 }).1.beq
              (Frac.ofInt 1) then
          ({ s with
              currentProgress := (calcProgress { s with currentProgress := Frac.ofInt 1 }).1,
              currentTime := (calcProgress { s with currentProgress := Frac.ofInt 1 }).2 },
            [TUpdate.prog (Frac.ofInt 1) "",
              TUpdate.prog (calcProgress { s with currentProgress := Frac.ofInt 1 }).1 ""])
        else
          ({ s with
              currentProgress := Frac.ofInt 1,
              currentTime := (calcProgress { s with currentProgress := Frac.ofInt 1 }).2 },
            [TUpdate.prog (Frac.ofInt 1) ""])) := rfl
    rw [hstep]
    obtain ⟨p, hpd, hcp⟩ := calcProgress_shape { s with currentProgress := Frac.ofInt 1 }
      (by norm_num [Frac.ofInt]) ht hc
    set cp := (calcProgress { s with currentProgress := Frac.ofInt 1 }).1 with hcpdef
    have hden : 0 < cp.den := by
      rw [hcp]
      exact clamp01_denPos p hpd
    have hbounds := clamp01_bounds p hpd
    rw [← hcp] at hbounds
    by_cases hcond : (((Frac.ofInt 1).add ⟨5, 1000⟩).blt cp || cp.beq (Frac.ofInt 1)) = true
    · rw [if_pos hcond]
      show cp.toRat = 1
      rcases Bool.or_eq_true_iff.mp hcond with h | h
      · exfalso
        have hle := Frac.num_le_den cp hden hbounds.2
        have hadd : (Frac.ofInt 1).add ⟨5, 1000⟩ = (⟨1005, 1000⟩ : Frac) := rfl
        rw [hadd] at h
        simp only [Frac.blt, decide_eq_true_eq] at h
        omega
      · have hnd : cp.num = (cp.den : Int) := by
          simp only [Frac.beq, Frac.ofInt, decide_eq_true_eq] at h
          omega
        unfold Frac.toRat
        rw [hnd]
        exact div_self (Nat.cast_ne_zero.mpr (by omega))
    · rw [if_neg hcond]
      norm_num [Frac.toRat, Frac.ofInt]

/-- Witness for the amended C5 at a concrete monitor state (48 frames
seen, no total duration known): the computed fraction lies in [0,1] and
under the 0.99 cap, and the end marker leaves the fraction at 1. -/
theorem SeedParser.progress_clamping_witness :
    (0 ≤ (calcProgress { MonState.init with currentFrame := 48 }).1.toRat ∧
      (calcProgress { MonState.init with currentFrame := 48 }).1.toRat ≤ 1) ∧
    (calcProgress { MonState.init with currentFrame := 48 }).1.toRat ≤ 99 / 100 ∧
    (stdoutStep "progress=end"
      { MonState.init with currentFrame := 48 }).1.currentProgress.toRat = 1 := by
  have h := progress_clamping { MonState.init with currentFrame := 48 }
    (by decide) (by decide) (by decide)
  exact ⟨h.1, h.2.1 (by decide), h.2.2⟩

/-- The startup transcode scan started from a candidate returns a task
no later than the candidate and than every waiting task of the list,
and either keeps the candidate or picks a waiting member of the
list. -/
theorem SeedParser.startupScanTranscode_min (l : List TranscodeTask) (b t : TranscodeTask)
    (h : startupScanTranscode l (some b) = some t) :
    t.startTime ≤ b.startTime ∧ (t = b ∨ (t ∈ l ∧ t.status = "waiting")) ∧
    (∀ u ∈ l, u.status = "waiting" → t.startTime ≤ u.startTime) := by
  induction l generalizing b with
  | nil =>
    rw [startupScanTranscode] at h
    injection h with h
    subst h
    exact ⟨le_refl _, Or.inl rfl, fun u hu => absurd hu (List.not_mem_nil u)⟩
  | cons u us ih =>
    by_cases hw : u.status = "waiting"
    · rw [startupScanTranscode, if_pos hw] at h
      by_cases hlt : u.startTime < b.startTime
      · rw [if_pos hlt] at h
        obtain ⟨h1, h2, h3⟩ := ih u h
        refine ⟨le_trans h1 (le_of_lt hlt), ?_, ?_⟩
        · rcases h2 with rfl | ⟨hm, hw2⟩
          · exact Or.inr ⟨List.mem_cons_self _ _, hw⟩
          · exact Or.inr ⟨List.mem_cons_of_mem u hm, hw2⟩
        · intro v hv hvw
          rcases List.mem_cons.mp hv with rfl | hv2
          · exact h1
          · exact h3 v hv2 hvw
      · rw [if_neg hlt] at h
        obtain ⟨h1, h2, h3⟩ := ih b h
        push_neg at hlt
        refine ⟨h1, ?_, ?_⟩
        · rcases h2 with rfl | ⟨hm, hw2⟩
          · exact Or.inl rfl
          · exact Or.inr ⟨List.mem_cons_of_mem u hm, hw2⟩
        · intro v hv hvw
          rcases List.mem_cons.mp hv with rfl | hv2
          · exact le_trans h1 hlt
          · exact h3 v hv2 hvw
    · rw [startupScanTranscode, if_neg hw] at h
      obtain ⟨h1, h2, h3⟩ := ih b h
      refine ⟨h1, ?_, ?_⟩
      · rcases h2 with rfl | ⟨hm, hw2⟩
        · exact Or.inl rfl
        · exact Or.inr ⟨List.mem_cons_of_mem u hm, hw2⟩
      · intro v hv hvw
        rcases List.mem_cons.mp hv with rfl | hv2
        · exact absurd hvw hw
        · exact h3 v hv2 hvw

/-- The startup transcode selection picks a waiting member of the list
with the earliest StartTime. -/
theorem SeedParser.startupEarliestTranscode_min (l : List TranscodeTask) (t : TranscodeTask)
    (h : startupEarliestTranscode l = some t) :
    t ∈ l ∧ t.status = "waiting" ∧
    ∀ u ∈ l, u.status = "waiting" → t.startTime ≤ u.startTime := by
  induction l with
  | nil =>
    rw [startupEarliestTranscode, startupScanTranscode] at h
    cases h
  | cons u us ih =>
    by_cases hw : u.status = "waiting"
    · rw [startupEarliestTranscode, startupScanTranscode, if_pos hw] at h
      obtain ⟨h1, h2, h3⟩ := startupScanTranscode_min us u t h
      refine ⟨?_, ?_, ?_⟩
      · rcases h2 with rfl | ⟨hm, _⟩
        · exact List.mem_cons_self _ _
        · exact List.mem_cons_of_mem u hm
      · rcases h2 with rfl | ⟨_, hw2⟩
        · exact hw
        · exact hw2
      · intro v hv hvw
        rcases List.mem_cons.mp hv with rfl | hv2
        · exact h1
        · exact h3 v hv2 hvw
    · rw [startupEarliestTranscode, startupScanTranscode, if_neg hw] at h
      obtain ⟨hm, hw2, h3⟩ := ih h
      refine ⟨List.mem_cons_of_mem u hm, hw2, ?_⟩
      intro v hv hvw
      rcases List.mem_cons.mp hv with rfl | hv2
      · exact absurd hvw hw
      · exact h3 v hv2 hvw

/-- The startup download scan started from a candidate pair: the result
pair is no later than the candidate and than every waiting task with a
present start time; it is the candidate or a waiting member, and its
recorded time is the task's start time. -/
theorem SeedParser.startupScanDownload_min (l : List DownloadTask) (b : DownloadTask)
    (bt : Nat) (q : DownloadTask × Nat)
    (h : startupScanDownload l (some (b, bt)) = some q) :
    q.2 ≤ bt ∧
    (q = (b, bt) ∨ (q.1 ∈ l ∧ q.1.status = "waiting" ∧ q.1.startTime = some q.2)) ∧
    (∀ u ∈ l, u.status = "waiting" → ∀ su ∈ u.startTime, q.2 ≤ su) := by
  induction l generalizing b bt with
  | nil =>
    rw [startupScanDownload] at h
    injection h with h
    subst h
    exact ⟨le_refl _, Or.inl rfl, fun u hu => absurd hu (List.not_mem_nil u)⟩
  | cons u us ih =>
    by_cases hw : u.status = "waiting"
    · rw [startupScanDownload, if_pos hw] at h
      cases hst : u.startTime with
      | none =>
        rw [hst] at h
        dsimp only at h
        obtain ⟨h1, h2, h3⟩ := ih b bt h
        refine ⟨h1, ?_, ?_⟩
        · rcases h2 with rfl | ⟨hm, hw2, hq⟩
          · exact Or.inl rfl
          · exact Or.inr ⟨List.mem_cons_of_mem u hm, hw2, hq⟩
        · intro v hv hvw sv hsv
          rcases List.mem_cons.mp hv with rfl | hv2
          · simp [hst] at hsv
          · exact h3 v hv2 hvw sv hsv
      | some st =>
        rw [hst] at h
        dsimp only at h
        by_cases hlt : st < bt
        · rw [if_pos hlt] at h
          obtain ⟨h1, h2, h3⟩ := ih u st h
          refine ⟨le_trans h1 (le_of_lt hlt), ?_, ?_⟩
          · rcases h2 with rfl | ⟨hm, hw2, hq⟩
            · exact Or.inr ⟨List.mem_cons_self u us, hw, hst⟩
            · exact Or.inr ⟨List.mem_cons_of_mem u hm, hw2, hq⟩
          · intro v hv hvw sv hsv
            rcases List.mem_cons.mp hv with rfl | hv2
            · rw [hst, Option.mem_def] at hsv
              injection hsv with hsv
              subst hsv
              exact h1
            · exact h3 v hv2 hvw sv hsv
        · rw [if_neg hlt] at h
          obtain ⟨h1, h2, h3⟩ := ih b bt h
          push_neg at hlt
          refine ⟨h1, ?_, ?_⟩
          · rcases h2 with rfl | ⟨hm, hw2, hq⟩
            · exact Or.inl rfl
            · exact Or.inr ⟨List.mem_cons_of_mem u hm, hw2, hq⟩
          · intro v hv hvw sv hsv
            rcases List.mem_cons.mp hv with rfl | hv2
            · rw [hst, Option.mem_def] at hsv
              injection hsv with hsv
              subst hsv
              exact le_trans h1 hlt
            · exact h3 v hv2 hvw sv hsv
    · rw [startupScanDownload, if_neg hw] at h
      obtain ⟨h1, h2, h3⟩ := ih b bt h
      refine ⟨h1, ?_, ?_⟩
      · rcases h2 with rfl | ⟨hm, hw2, hq⟩
        · exact Or.inl rfl
        · exact Or.inr ⟨List.mem_cons_of_mem u hm, hw2, hq⟩
      · intro v hv hvw sv hsv
        rcases List.mem_cons.mp hv with rfl | hv2
        · exact absurd hvw hw
        · exact h3 v hv2 hvw sv hsv

/-- The startup download selection picks a waiting member with a
present start time, earliest among the waiting tasks whose start time
is present. -/
theorem SeedParser.startupEarliestDownload_min (l : List DownloadTask) (d : DownloadTask)
    (h : startupEarliestDownload l = some d) :
    d ∈ l ∧ d.status = "waiting" ∧ d.startTime.isSome = true ∧
    ∀ u ∈ l, u.status = "waiting" → ∀ su ∈ u.startTime, ∀ sd ∈ d.startTime, sd ≤ su := by
  induction l with
  | nil =>
    rw [startupEarliestDownload, startupScanDownload] at h
    cases h
  | cons u us ih =>
    by_cases hw : u.status = "waiting"
    · rw [startupEarliestDownload, startupScanDownload, if_pos hw] at h
      cases hst : u.startTime with
      | none =>
        rw [hst] at h
        dsimp only at h
        obtain ⟨hm, hw2, hsome, h3⟩ := ih h
        refine ⟨List.mem_cons_of_mem u hm, hw2, hsome, ?_⟩
        intro v hv hvw sv hsv
        rcases List.mem_cons.mp hv with rfl | hv2
        · simp [hst] at hsv
        · exact h3 v hv2 hvw sv hsv
      | some st =>
        rw [hst] at h
        dsimp only at h
        rw [Option.map_eq_some'] at h
        obtain ⟨q, hq, rfl⟩ := h
        obtain ⟨h1, h2, h3⟩ := startupScanDownload_min us u st q hq
        have hqfacts : q.1 ∈ u :: us ∧ q.1.status = "waiting" ∧ q.1.startTime = some q.2 := by
          rcases h2 with rfl | ⟨hm, hw2, hfact⟩
          · exact ⟨List.mem_cons_self u us, hw, hst⟩
          · exact ⟨List.mem_cons_of_mem u hm, hw2, hfact⟩
        refine ⟨hqfacts.1, hqfacts.2.1, by rw [hqfacts.2.2]; rfl, ?_⟩
        intro v hv hvw sv hsv sd hsd
        rw [hqfacts.2.2, Option.mem_def] at hsd
        injection hsd with hsd
        subst hsd
        rcases List.mem_cons.mp hv with rfl | hv2
        · rw [hst, Option.mem_def] at hsv
          injection hsv with hsv
          subst hsv
          exact h1
        · exact h3 v hv2 hvw sv hsv
    · rw [startupEarliestDownload, startupScanDownload, if_neg hw] at h
      obtain ⟨hm, hw2, hsome, h3⟩ := ih h
      refine ⟨List.mem_cons_of_mem u hm, hw2, hsome, ?_⟩
      intro v hv hvw sv hsv
      rcases List.mem_cons.mp hv with rfl | hv2
      · exact absurd hvw hw
      · exact h3 v hv2 hvw sv hsv

/-- On a transcode store whose StartTimes are non-decreasing in list
order, the first waiting task is also an earliest waiting task. -/
theorem SeedParser.firstWaitingTranscode_min_of_sorted (l : List TranscodeTask)
    (hs : l.Pairwise (fun a b => a.startTime ≤ b.startTime)) (t : TranscodeTask)
    (h : firstWaitingTranscode l = some t) :
    t.status = "waiting" ∧ ∀ u ∈ l, u.status = "waiting" → t.startTime ≤ u.startTime := by
  induction l with
  | nil => cases h
  | cons u us ih =>
    rw [List.pairwise_cons] at hs
    by_cases hw : u.status = "waiting"
    · rw [firstWaitingTranscode, List.find?_cons_of_pos _ (by simpa using hw)] at h
      injection h with h
      subst h
      refine ⟨hw, ?_⟩
      intro v hv _
      rcases List.mem_cons.mp hv with rfl | hv2
      · exact le_refl _
      · exact hs.1 v hv2
    · rw [firstWaitingTranscode, List.find?_cons_of_neg _ (by simpa using hw)] at h
      obtain ⟨hw2, h3⟩ := ih hs.2 h
      refine ⟨hw2, ?_⟩
      intro v hv hvw
      rcases List.mem_cons.mp hv with rfl | hv2
      · exact absurd hvw hw
      · exact h3 v hv2 hvw

/-- On a download store whose present start times are non-decreasing in
list order, the first waiting task is also an earliest waiting task
among those with a present start time. -/
theorem SeedParser.firstWaitingDownload_min_of_sorted (l : List DownloadTask)
    (hs : l.Pairwise (fun a b => ∀ sa ∈ a.startTime, ∀ sb ∈ b.startTime, sa ≤ sb))
    (d : DownloadTask) (h : firstWaitingDownload l = some d) :
    d.status = "waiting" ∧
    ∀ u ∈ l, u.status = "waiting" → ∀ su ∈ u.startTime, ∀ sd ∈ d.startTime, sd ≤ su := by
  induction l with
  | nil => cases h
  | cons u us ih =>
    rw [List.pairwise_cons] at hs
    by_cases hw : u.status = "waiting"
    · rw [firstWaitingDownload, List.find?_cons_of_pos _ (by simpa using hw)] at h
      injection h with h
      subst h
      refine ⟨hw, ?_⟩
      intro v hv _ sv hsv sd hsd
      rcases List.mem_cons.mp hv with rfl | hv2
      · rw [Option.mem_def] at hsv hsd
        rw [hsd] at hsv
        injection hsv with hsv
        omega
      · exact hs.1 v hv2 sd hsd sv hsv
    · rw [firstWaitingDownload, List.find?_cons_of_neg _ (by simpa using hw)] at h
      obtain ⟨hw2, h3⟩ := ih hs.2 h
      refine ⟨hw2, ?_⟩
      intro v hv hvw
      rcases List.mem_cons.mp hv with rfl | hv2
      · exact absurd hvw hw
      · exact h3 v hv2 hvw

/-- C7 counterexample: the promote scans pick the first waiting task in
stable list order, not the one with the earliest timestamp.  On the
store below, task A (start time 5) precedes task B (start time 3), both
waiting: promote-next selects A, though B is a waiting task with a
strictly earlier start time; the startup scan on the same store selects
B. -/
theorem SeedParser.promote_not_earliest :
    firstWaitingTranscode
        [sampleTranscode "A" "waiting" 5, sampleTranscode "B" "waiting" 3] =
      some (sampleTranscode "A" "waiting" 5) ∧
    sampleTranscode "B" "waiting" 3 ∈
      [sampleTranscode "A" "waiting" 5, sampleTranscode "B" "waiting" 3] ∧
    (sampleTranscode "B" "waiting" 3).status = "waiting" ∧
    (sampleTranscode "B" "waiting" 3).startTime <
      (sampleTranscode "A" "waiting" 5).startTime ∧
    startupEarliestTranscode
        [sampleTranscode "A" "waiting" 5, sampleTranscode "B" "waiting" 3] =
      some (sampleTranscode "B" "waiting" 3) := by
  decide

/-- C7 as amended: the startup recovery scans select, in each domain, a
waiting task with the earliest start timestamp (skipping download
records with a missing or unparsable start time); the promote scans
that run after the active task reaches a terminal state instead select
the first waiting task in stable list order, regardless of timestamp —
the two rules agree whenever the waiting tasks' timestamps are
non-decreasing in list order, which enqueue-append-only histories
maintain. -/
theorem SeedParser.fifo_selection (l : List TranscodeTask) (dl : List DownloadTask) :
    (∀ t, startupEarliestTranscode l = some t →
      t ∈ l ∧ t.status = "waiting" ∧
        ∀ u ∈ l, u.status = "waiting" → t.startTime ≤ u.startTime) ∧
    (∀ t, l.Pairwise (fun a b => a.startTime ≤ b.startTime) →
      firstWaitingTranscode l = some t →
      t.status = "waiting" ∧ ∀ u ∈ l, u.status = "waiting" → t.startTime ≤ u.startTime) ∧
    (∀ d, startupEarliestDownload dl = some d →
      d ∈ dl ∧ d.status = "waiting" ∧ d.startTime.isSome = true ∧
        ∀ u ∈ dl, u.status = "waiting" → ∀ su ∈ u.startTime, ∀ sd ∈ d.startTime, sd ≤ su) ∧
    (∀ d, dl.Pairwise (fun a b => ∀ sa ∈ a.startTime, ∀ sb ∈ b.startTime, sa ≤ sb) →
      firstWaitingDownload dl = some d →
      d.status = "waiting" ∧
        ∀ u ∈ dl, u.status = "waiting" → ∀ su ∈ u.startTime, ∀ sd ∈ d.startTime, sd ≤ su) :=
  ⟨fun t h => startupEarliestTranscode_min l t h,
   fun t hs h => firstWaitingTranscode_min_of_sorted l hs t h,
   fun d h => startupEarliestDownload_min dl d h,
   fun d hs h => firstWaitingDownload_min_of_sorted dl hs d h⟩

/-- Witness for the amended C7 at concrete sorted two-task stores. -/
theorem SeedParser.fifo_selection_witness :
    ((sampleTranscode "t1" "waiting" 3).status = "waiting" ∧
      ∀ u ∈ [sampleTranscode "t0" "completed" 1, sampleTranscode "t1" "waiting" 3],
        u.status = "waiting" →
        (sampleTranscode "t1" "waiting" 3).startTime ≤ u.startTime) ∧
    ((sampleDownload "d1" "waiting" (some 3)).status = "waiting" ∧
      ∀ u ∈ [sampleDownload "d0" "completed" (some 1), sampleDownload "d1" "waiting" (some 3)],
        u.status = "waiting" → ∀ su ∈ u.startTime,
        ∀ sd ∈ (sampleDownload "d1" "waiting" (some 3)).startTime, sd ≤ su) := by
  have h := fifo_selection [sampleTranscode "t0" "completed" 1, sampleTranscode "t1" "waiting" 3]
    [sampleDownload "d0" "completed" (some 1), sampleDownload "d1" "waiting" (some 3)]
  exact ⟨h.2.1 (sampleTranscode "t1" "waiting" 3) (by decide) (by decide),
    h.2.2.2 (sampleDownload "d1" "waiting" (some 3)) (by decide) (by decide)⟩

/-- C6: the size-string parser maps "512 KB" to 524288 bytes, "1.5 GB"
to 1610612736 bytes, and a bare number such as "0" to that many bytes,
interpreting the units KB/MB/GB/TB/PB as binary (1024-based) multiples
of bytes. -/
theorem SeedParser.parseFileSize_spec :
    parseFileSize "512 KB" = Except.ok 524288 ∧
    parseFileSize "1.5 GB" = Except.ok 1610612736 ∧
    parseFileSize "0" = Except.ok 0 ∧
    parseFileSize "123" = Except.ok 123 ∧
    parseFileSize "1KB" = Except.ok 1024 ∧
    parseFileSize "1MB" = Except.ok 1048576 ∧
    parseFileSize "1GB" = Except.ok 1073741824 ∧
    parseFileSize "1TB" = Except.ok 1099511627776 ∧
    parseFileSize "1PB" = Except.ok 1125899906842624 := by
  exact ⟨rfl, rfl, rfl, rfl, rfl, rfl, rfl, rfl, rfl⟩
